import Mathlib

/-!
Verification development for the TigerVNC frame-update encoding pipeline.

The definitions below are a shallow embedding of the C++ sources:
  * src/unnamed/part_001  (rfb::MsgReader: readCutText, readExtendedClipboard, readFence)
  * src/unnamed/part_002  (rfb::MsgWriter: writeFence, writeCutText, writeClipboardCaps,
                           writeClipboardRequest, writeClipboardPeek, writeClipboardNotify,
                           writeClipboardProvide)
  * src/common/rfb/EncodeManager.cxx (writeUpdate, computeNumRects, writeRects,
                           EncodeThread::worker, EncodeThread::prepareRect)

Byte streams (rdr::InStream / rdr::OutStream) are modelled as lists of bytes
(`List Nat`, each element intended `< 256`); multi-byte quantities are big-endian
as in the rdr stream classes.  Fallible operations return `Except`.
-/

set_option maxRecDepth 100000

/-- Errors raised by the embedded reader/writer functions.  Each constructor
corresponds to one `throw Exception(...)` site or to reading past the end of
the available bytes (a blocking read in the real `rdr::InStream`). -/
inductive RfbErr where
  | underflow
  | peerNoFence
  | tooLargeFencePayload
  | unknownFenceFlags
  | peerNoExtClipboard
  | peerNoRequestAction
  | peerNoPeekAction
  | peerNoNotifyAction
  | peerNoProvideAction
  | invalidExtendedClipboardMsg
  | invalidExtendedClipboardAction
  deriving DecidableEq, Repr

/-- Read one byte from the stream (rdr::InStream::readU8). -/
def readU8 : List Nat → Except RfbErr (Nat × List Nat)
  | [] => .error .underflow
  | b :: rest => .ok (b, rest)

/-- Skip `n` bytes (rdr::InStream::skip). -/
def skipBytes (n : Nat) (s : List Nat) : Except RfbErr (List Nat) :=
  if n ≤ s.length then .ok (s.drop n) else .error .underflow

/-- Read `n` bytes (rdr::InStream::readBytes). -/
def readBytesN (n : Nat) (s : List Nat) : Except RfbErr (List Nat × List Nat) :=
  if n ≤ s.length then .ok (s.take n, s.drop n) else .error .underflow

/-- Read a big-endian 32-bit word (rdr::InStream::readU32). -/
def readU32 (s : List Nat) : Except RfbErr (Nat × List Nat) := do
  let (b0, s) ← readU8 s
  let (b1, s) ← readU8 s
  let (b2, s) ← readU8 s
  let (b3, s) ← readU8 s
  .ok (((b0 * 256 + b1) * 256 + b2) * 256 + b3, s)

/-- Big-endian bytes of a 32-bit word (rdr::OutStream::writeU32). -/
def u32be (v : Nat) : List Nat :=
  [v / 16777216 % 256, v / 65536 % 256, v / 256 % 256, v % 256]

/-- Reinterpret a u32 as a two's-complement signed 32-bit value
(the C conversion `rdr::S32 slen = len`). -/
def s32ofU32 (v : Nat) : Int :=
  if v < 2147483648 then (v : Int) else (v : Int) - 4294967296

/-- Two's-complement 32-bit negation (the C expression `slen = -slen`). -/
def negS32 (v : Int) : Int :=
  s32ofU32 (((-v) % 4294967296).toNat)

/-- Big-endian bytes of a signed 32-bit value (rdr::OutStream::writeS32). -/
def s32be (v : Int) : List Nat :=
  u32be ((v % 4294967296).toNat)

theorem readU8_append (b : Nat) (r : List Nat) : readU8 (b :: r) = .ok (b, r) := rfl

theorem readU32_u32be (v : Nat) (hv : v < 4294967296) (r : List Nat) :
    readU32 (u32be v ++ r) = .ok (v, r) := by
  simp only [u32be, List.cons_append, List.nil_append, readU32, readU8, bind, Except.bind]
  have : ((v / 16777216 % 256 * 256 + v / 65536 % 256) * 256 + v / 256 % 256) * 256 + v % 256
      = v := by omega
  simp [this]

theorem readBytesN_append (d r : List Nat) :
    readBytesN d.length (d ++ r) = .ok (d, r) := by
  unfold readBytesN
  rw [if_pos (by simp)]
  simp

theorem skipBytes_append (d r : List Nat) :
    skipBytes d.length (d ++ r) = .ok r := by
  unfold skipBytes
  rw [if_pos (by simp)]
  simp

/-!
Constants of the wire protocol.

Modelled from the spec: the headers `rfb/clipboardTypes.h`, `rfb/fenceTypes.h` and
`rfb/msgTypes.h` are not part of the sources; the spec (section 4.1) states that the
low 16 bits of the extended-clipboard flag word are format bits and the high bits an
action field with actions Caps, Request, Peek, Notify and Provide, that `writeFence`
rejects flags outside the known fence flag set, and the glossary names the fence
flags BlockBefore and Request.  The numeric values used here are those of the RFB
extended clipboard and fence extensions. -/
def clipboardCaps : Nat := 16777216
def clipboardRequest : Nat := 33554432
def clipboardPeek : Nat := 67108864
def clipboardNotify : Nat := 134217728
def clipboardProvide : Nat := 268435456
def clipboardActionMask : Nat := 4278190080
def fenceFlagBlockBefore : Nat := 1
def fenceFlagBlockAfter : Nat := 2
def fenceFlagSyncNext : Nat := 4
def fenceFlagRequest : Nat := 2147483648
def fenceFlagsSupported : Nat :=
  fenceFlagBlockBefore + fenceFlagBlockAfter + fenceFlagSyncNext + fenceFlagRequest
def msgTypeServerCutText : Nat := 3
def msgTypeClientCutText : Nat := 6
def msgTypeServerFence : Nat := 248
def msgTypeClientFence : Nat := 248
def u32Mask : Nat := 4294967295

/-- The part of rfb::ConnParams used by the message writer: the peer capability
bits and the negotiated extended-clipboard flags (cp.clipboardFlags()). -/
structure ConnParams where
  supportsFence : Bool
  supportsExtendedClipboard : Bool
  clipboardFlags : Nat
  deriving DecidableEq, Repr

/-- MsgWriter::writeFence (src/unnamed/part_002 lines 42-60).  On success the
result is the whole message: type byte, 3 pad bytes, u32 flags, u8 len, payload.
All capability/validity checks precede the first byte written, so an error
means nothing was written. -/
def writeFence (cp : ConnParams) (client : Bool) (flags : Nat) (len : Nat)
    (data : List Nat) : Except RfbErr (List Nat) :=
  if cp.supportsFence = false then .error .peerNoFence
  else if 64 < len then .error .tooLargeFencePayload
  else if flags &&& (u32Mask ^^^ fenceFlagsSupported) ≠ 0 then .error .unknownFenceFlags
  else .ok ([if client then msgTypeClientFence else msgTypeServerFence]
            ++ [0, 0, 0] ++ u32be flags ++ [len] ++ data.take len)

/-- MsgWriter::writeCutText (src/unnamed/part_002 lines 62-69). -/
def writeCutText (client : Bool) (str : List Nat) (len : Nat) :
    Except RfbErr (List Nat) :=
  .ok ([if client then msgTypeClientCutText else msgTypeServerCutText]
       ++ [0, 0, 0] ++ u32be len ++ str.take len)

/-- Count of set bits among the 16 format bits, written as the source loops do
(`for i in 0..15: if (caps & (1 << i)) count++`). -/
def countFormatBits (flags : Nat) : Nat :=
  (List.range 16).foldl (fun n i => if flags &&& (1 <<< i) ≠ 0 then n + 1 else n) 0

/-- MsgWriter::writeClipboardCaps (src/unnamed/part_002 lines 71-98).  Note that
the only capability checked is supportsExtendedClipboard; no action bit of
cp.clipboardFlags is consulted. -/
def writeClipboardCaps (cp : ConnParams) (client : Bool) (caps : Nat)
    (lengths : List Nat) : Except RfbErr (List Nat) :=
  if cp.supportsExtendedClipboard = false then .error .peerNoExtClipboard
  else
    let count := countFormatBits caps
    .ok ([if client then msgTypeClientCutText else msgTypeServerCutText]
         ++ [0, 0, 0] ++ s32be (-(4 + 4 * (count : Int)))
         ++ u32be (caps ||| clipboardCaps)
         ++ (lengths.take count).flatMap u32be)

/-- MsgWriter::writeClipboardRequest (src/unnamed/part_002 lines 100-112). -/
def writeClipboardRequest (cp : ConnParams) (client : Bool) (flags : Nat) :
    Except RfbErr (List Nat) :=
  if cp.supportsExtendedClipboard = false then .error .peerNoExtClipboard
  else if cp.clipboardFlags &&& clipboardRequest = 0 then .error .peerNoRequestAction
  else .ok ([if client then msgTypeClientCutText else msgTypeServerCutText]
            ++ [0, 0, 0] ++ s32be (-4) ++ u32be (flags ||| clipboardRequest))

/-- MsgWriter::writeClipboardPeek (src/unnamed/part_002 lines 114-126). -/
def writeClipboardPeek (cp : ConnParams) (client : Bool) (flags : Nat) :
    Except RfbErr (List Nat) :=
  if cp.supportsExtendedClipboard = false then .error .peerNoExtClipboard
  else if cp.clipboardFlags &&& clipboardPeek = 0 then .error .peerNoPeekAction
  else .ok ([if client then msgTypeClientCutText else msgTypeServerCutText]
            ++ [0, 0, 0] ++ s32be (-4) ++ u32be (flags ||| clipboardPeek))

/-- MsgWriter::writeClipboardNotify (src/unnamed/part_002 lines 128-140). -/
def writeClipboardNotify (cp : ConnParams) (client : Bool) (flags : Nat) :
    Except RfbErr (List Nat) :=
  if cp.supportsExtendedClipboard = false then .error .peerNoExtClipboard
  else if cp.clipboardFlags &&& clipboardNotify = 0 then .error .peerNoNotifyAction
  else .ok ([if client then msgTypeClientCutText else msgTypeServerCutText]
            ++ [0, 0, 0] ++ s32be (-4) ++ u32be (flags ||| clipboardNotify))

/-- Concatenated `(u32 length, bytes)` records of writeClipboardProvide, in
format-bit ascending order, one record per set bit (lengths/data indexed
sequentially as `lengths[count++]` in the source). -/
def provideRecords (flags : Nat) (entries : List (Nat × List Nat)) : List Nat :=
  ((List.range 16).filter (fun i => flags &&& (1 <<< i) ≠ 0)).zip entries
    |>.flatMap (fun p => u32be p.2.1 ++ p.2.2.take p.2.1)

/-- MsgWriter::writeClipboardProvide (src/unnamed/part_002 lines 142-175).
Modelled from the spec: the zlib stream (rdr::ZlibOutStream, not in the sources)
is treated as the identity transformation; spec section 8 states the provide
round trip only modulo the zlib round trip. -/
def writeClipboardProvide (cp : ConnParams) (client : Bool) (flags : Nat)
    (entries : List (Nat × List Nat)) : Except RfbErr (List Nat) :=
  if cp.supportsExtendedClipboard = false then .error .peerNoExtClipboard
  else if cp.clipboardFlags &&& clipboardProvide = 0 then .error .peerNoProvideAction
  else
    let body := provideRecords flags entries
    .ok ([if client then msgTypeClientCutText else msgTypeServerCutText]
         ++ [0, 0, 0] ++ s32be (-(4 + (body.length : Int)))
         ++ u32be (flags ||| clipboardProvide) ++ body)

/-- Result of MsgReader::readExtendedClipboard: which MsgHandler callback fires
(or `ignored` when an over-long message is skipped and dropped). -/
inductive ExtClipResult where
  | caps (flags : Nat) (lengths : List Nat)
  | provide (flags : Nat) (entries : List (Nat × List Nat))
  | request (flags : Nat)
  | peek (flags : Nat)
  | notify (flags : Nat)
  | ignored
  deriving DecidableEq, Repr

/-- Whether the result is a clipboardCaps handler invocation. -/
def ExtClipResult.isCaps : ExtClipResult → Bool
  | .caps _ _ => true
  | _ => false

/-- The caps-action reading loop of readExtendedClipboard (src/unnamed/part_001
lines 98-102): one u32 per set format bit, in ascending bit order. -/
def readCapsLengths (flags : Nat) : List Nat → List Nat →
    Except RfbErr (List Nat × List Nat)
  | [], s => .ok ([], s)
  | i :: is, s =>
    if flags &&& (1 <<< i) ≠ 0 then do
      let (v, s) ← readU32 s
      let (rest, s) ← readCapsLengths flags is s
      .ok (v :: rest, s)
    else readCapsLengths flags is s

/-- The provide-action reading loop of readExtendedClipboard (src/unnamed/part_001
lines 115-132): for each set format bit read a u32 length; an over-long format
has its data skipped and its bit cleared (`flags &= ~(1 << i)` on the 32-bit
flag word), otherwise its bytes are buffered.  Returns the final flag word and
the compacted (length, buffer) pairs handed to clipboardProvide. -/
def provideLoop (maxCutText : Nat) : List Nat → Nat → List Nat →
    Except RfbErr (Nat × List (Nat × List Nat) × List Nat)
  | [], flags, s => .ok (flags, [], s)
  | i :: is, flags, s =>
    if flags &&& (1 <<< i) = 0 then provideLoop maxCutText is flags s
    else do
      let (ln, s) ← readU32 s
      if maxCutText < ln then do
        let s ← skipBytes ln s
        provideLoop maxCutText is (flags &&& (u32Mask ^^^ (1 <<< i))) s
      else do
        let (buf, s) ← readBytesN ln s
        let (fl, rest, s) ← provideLoop maxCutText is flags s
        .ok (fl, (ln, buf) :: rest, s)

/-- MsgReader::readExtendedClipboard (src/unnamed/part_001 lines 68-159).
`maxCutText` is the process-wide MaxCutText parameter (default 262144).
Modelled from the spec: the zlib stream wrapped around the provide payload
(rdr::ZlibInStream, not in the sources) is treated as the identity
transformation, so the provide records are parsed from the raw bytes. -/
def readExtendedClipboard (maxCutText : Nat) (len : Int) (s : List Nat) :
    Except RfbErr (ExtClipResult × List Nat) :=
  if len < 4 then .error .invalidExtendedClipboardMsg
  else if (maxCutText : Int) < len then do
    let s ← skipBytes len.toNat s
    .ok (.ignored, s)
  else do
    let (flags, s) ← readU32 s
    let action := flags &&& clipboardActionMask
    if action &&& clipboardCaps ≠ 0 then
      let num := countFormatBits flags
      if len < 4 + 4 * (num : Int) then .error .invalidExtendedClipboardMsg
      else do
        let (lengths, s) ← readCapsLengths flags (List.range 16) s
        .ok (.caps flags lengths, s)
    else if action = clipboardProvide then do
      let (fl, entries, s) ← provideLoop maxCutText (List.range 16) flags s
      .ok (.provide fl entries, s)
    else if action = clipboardRequest then .ok (.request flags, s)
    else if action = clipboardPeek then .ok (.peek flags, s)
    else if action = clipboardNotify then .ok (.notify flags, s)
    else .error .invalidExtendedClipboardAction

/-- The length handed to readExtendedClipboard by readCutText when the high bit
of the u32 length is set: the u32 is reinterpreted as a signed 32-bit value and
negated in 32-bit two's complement (src/unnamed/part_001 lines 50-54). -/
def cutTextDispatchLen (len : Nat) : Int := negS32 (s32ofU32 len)

/-- Result of MsgReader::readCutText. -/
inductive CutTextResult where
  | text (data : List Nat) (len : Nat)
  | ext (r : ExtClipResult)
  | ignored
  deriving DecidableEq, Repr

/-- MsgReader::readCutText (src/unnamed/part_001 lines 45-66). -/
def readCutText (maxCutText : Nat) (s : List Nat) :
    Except RfbErr (CutTextResult × List Nat) := do
  let s ← skipBytes 3 s
  let (len, s) ← readU32 s
  if len &&& 2147483648 ≠ 0 then do
    let (r, s) ← readExtendedClipboard maxCutText (cutTextDispatchLen len) s
    .ok (.ext r, s)
  else if maxCutText < len then do
    let s ← skipBytes len s
    .ok (.ignored, s)
  else do
    let (data, s) ← readBytesN len s
    .ok (.text data len, s)

/-- Result of MsgReader::readFence. -/
inductive FenceResult where
  | fence (flags : Nat) (len : Nat) (data : List Nat)
  | ignored
  deriving DecidableEq, Repr

/-- MsgReader::readFence (src/unnamed/part_001 lines 161-181). -/
def readFence (s : List Nat) : Except RfbErr (FenceResult × List Nat) := do
  let s ← skipBytes 3 s
  let (flags, s) ← readU32 s
  let (len, s) ← readU8 s
  if 64 < len then do
    let s ← skipBytes len s
    .ok (.ignored, s)
  else do
    let (data, s) ← readBytesN len s
    .ok (.fence flags len data, s)

/-!
Geometry of EncodeManager (src/common/rfb/EncodeManager.cxx).
-/

/-- Axis-aligned integer rectangle (rfb::Rect), with top-left and bottom-right
corners; the rectangle covers the half-open box [tlx, brx) x [tly, bry). -/
structure Rect where
  tlx : Int
  tly : Int
  brx : Int
  bry : Int
  deriving DecidableEq, Repr

def Rect.width (r : Rect) : Int := r.brx - r.tlx

def Rect.height (r : Rect) : Int := r.bry - r.tly

def Rect.area (r : Rect) : Int := r.width * r.height

/-- Split each rectangle into smaller ones no larger than this area
(EncodeManager.cxx line 43). -/
def SubRectMaxArea : Int := 65536

/-- ... and no wider than this width (EncodeManager.cxx line 44). -/
def SubRectMaxWidth : Int := 2048

/-- One strip-mining loop of writeRects: the positions `lo, lo+step, ...` that
are `< hi`.  The fuel argument only serves structural recursion; `(hi-lo).toNat`
steps always suffice because each iteration advances by `step ≥ 1`. -/
def tileGo (limit step : Int) : Nat → Int → List Int
  | 0, _ => []
  | fuel + 1, pos =>
    if pos < limit then pos :: tileGo limit step fuel (pos + step) else []

/-- Positions taken by a loop `for (p = lo; p < hi; p += step)`. -/
def tilePositions (lo hi step : Int) : List Int :=
  tileGo hi step (hi - lo).toNat lo

/-- The sub-rectangle width chosen by writeRects and computeNumRects
(`if (w <= SubRectMaxWidth) sw = w; else sw = SubRectMaxWidth`). -/
def subRectWidth (w : Int) : Int :=
  if w ≤ SubRectMaxWidth then w else SubRectMaxWidth

/-- The sub-rectangles queued by EncodeManager::writeRects for one rectangle
(EncodeManager.cxx lines 648-681): kept whole if the area is below
SubRectMaxArea and the width below SubRectMaxWidth, otherwise strip-mined
row-major with y-step `sh = SubRectMaxArea / sw` and x-step `sw`, each
sub-rectangle clamped to the original. -/
def splitRect (r : Rect) : List Rect :=
  if r.width * r.height < SubRectMaxArea ∧ r.width < SubRectMaxWidth then [r]
  else
    let sw := subRectWidth r.width
    let sh := SubRectMaxArea / sw
    (tilePositions r.tly r.bry sh).flatMap (fun y =>
      (tilePositions r.tlx r.brx sw).map (fun x =>
        ⟨x, y, min (x + sw) r.brx, min (y + sh) r.bry⟩))

/-- The per-rectangle count used by EncodeManager::computeNumRects
(EncodeManager.cxx lines 440-461): 1 if no split is necessary, else
`ceil(w/sw) * ceil(h/sh)` computed as `((w-1)/sw + 1) * ((h-1)/sh + 1)`. -/
def numSubRects (r : Rect) : Int :=
  if r.width * r.height < SubRectMaxArea ∧ r.width < SubRectMaxWidth then 1
  else
    let sw := subRectWidth r.width
    let sh := SubRectMaxArea / sw
    ((r.width - 1) / sw + 1) * ((r.height - 1) / sh + 1)

/-- EncodeManager::computeNumRects summed over the rectangles of the changed
region (EncodeManager.cxx lines 432-464). -/
def computeNumRects (changed : List Rect) : Int :=
  changed.foldl (fun acc r => acc + numSubRects r) 0

/-- The sequence of queueSubRect calls made by EncodeManager::writeRects for a
changed region (one sub-rectangle list per region rectangle, in order). -/
def writeRectsQueued (changed : List Rect) : List Rect :=
  changed.flatMap splitRect

/-- The rectangle count written into the framebuffer-update header by
EncodeManager::writeUpdate (EncodeManager.cxx lines 289-297): the LastRect
sentinel 0xFFFF, or CopyRect count + computeNumRects + 1 for a cursor. -/
def writeUpdateNRects (lastRect : Bool) (copied changed : List Rect)
    (cursor : Bool) : Int :=
  if lastRect then 65535
  else (copied.length : Int) + computeNumRects changed + (if cursor then 1 else 0)

/-- The number of rectangle records actually emitted into the frame on the
non-LastRect path: one CopyRect record per copied rectangle (writeCopyRects,
lines 508-529), one startRect/endRect pair per sub-rectangle queued by
writeRects and drained by flush (one OutputEntry per queued RectEntry, lines
813-847), plus one pair for the cursor sub-rectangle (lines 314-320). -/
def writeUpdateEmitted (copied changed : List Rect) (cursor : Bool) : Nat :=
  copied.length + (writeRectsQueued changed).length + (if cursor then 1 else 0)

/-- The six encoder roles (enum EncoderType, EncodeManager.cxx lines 64-72). -/
inductive EncoderType where
  | solid
  | bitmap
  | bitmapRLE
  | indexed
  | indexedRLE
  | fullColour
  deriving DecidableEq, Repr

/-- The RLE-choice guess of EncodeThread::prepareRect (EncodeManager.cxx line
1034): `useRLE = rleRuns <= (rect.area() * 2)`. -/
def useRLE (rleRuns area : Int) : Bool := rleRuns ≤ area * 2

/-- The role decision of EncodeThread::prepareRect from the palette size and
the RLE guess (EncodeManager.cxx lines 1036-1054). -/
def selectEncoderType (paletteSize : Nat) (rleRuns area : Int) : EncoderType :=
  match paletteSize with
  | 0 => .fullColour
  | 1 => .solid
  | 2 => if useRLE rleRuns area then .bitmapRLE else .bitmap
  | _ + 3 => if useRLE rleRuns area then .indexedRLE else .indexed

/-- Ceiling division on naturals, `(d + s - 1) / s`. -/
def ceilN (d s : Nat) : Nat := (d + s - 1) / s

theorem ceilN_zero (s : Nat) (hs : 1 ≤ s) : ceilN 0 s = 0 := by
  unfold ceilN
  exact Nat.div_eq_of_lt (by omega)

theorem ceilN_step (d s : Nat) (hs : 1 ≤ s) (hd : 1 ≤ d) :
    ceilN d s = ceilN (d - s) s + 1 := by
  unfold ceilN
  rcases Nat.lt_or_ge d s with h | h
  · have h1 : (d + s - 1) / s = 1 := by
      have := Nat.div_eq_of_lt_le (by omega : 1 * s ≤ d + s - 1) (by omega : d + s - 1 < (1 + 1) * s)
      simpa using this
    have h0 : (d - s + s - 1) / s = 0 := by
      have : d - s = 0 := by omega
      rw [this]
      exact Nat.div_eq_of_lt (by omega)
    omega
  · have e1 : d + s - 1 = (d - 1) + s := by omega
    have e2 : d - s + s - 1 = d - 1 := by omega
    rw [e1, e2, Nat.add_div_right _ (by omega)]

theorem tileGo_eq_range_map (limit step : Int) (hstep : 1 ≤ step) :
    ∀ (fuel : Nat) (pos : Int), (limit - pos).toNat ≤ fuel →
      tileGo limit step fuel pos
        = (List.range (ceilN (limit - pos).toNat step.toNat)).map
            (fun i : Nat => pos + (i : Int) * step) := by
  intro fuel
  induction fuel with
  | zero =>
    intro pos h
    have h0 : (limit - pos).toNat = 0 := by omega
    rw [h0, ceilN_zero _ (by omega)]
    rfl
  | succ n ih =>
    intro pos h
    by_cases hlt : pos < limit
    · have hd : 1 ≤ (limit - pos).toNat := by omega
      have hd' : (limit - (pos + step)).toNat = (limit - pos).toNat - step.toNat := by omega
      have hfuel : (limit - (pos + step)).toNat ≤ n := by omega
      have ihx := ih (pos + step) hfuel
      rw [tileGo, if_pos hlt, ihx, hd',
        ceilN_step _ _ (by omega) hd, List.range_succ_eq_map]
      simp only [List.map_cons, List.map_map]
      congr 1
      · simp
      · apply List.map_congr_left
        intro i _
        simp only [Function.comp_apply, Nat.succ_eq_add_one]
        push_cast
        ring
    · have h0 : (limit - pos).toNat = 0 := by omega
      rw [tileGo, if_neg hlt, h0, ceilN_zero _ (by omega)]
      rfl

theorem tilePositions_eq_range_map (lo hi step : Int) (hstep : 1 ≤ step) :
    tilePositions lo hi step
      = (List.range (ceilN (hi - lo).toNat step.toNat)).map
          (fun i : Nat => lo + (i : Int) * step) :=
  tileGo_eq_range_map hi step hstep _ lo le_rfl

theorem length_tilePositions (lo hi step : Int) (hstep : 1 ≤ step) :
    (tilePositions lo hi step).length = ceilN (hi - lo).toNat step.toNat := by
  rw [tilePositions_eq_range_map lo hi step hstep, List.length_map, List.length_range]

theorem tileGo_mem_bounds (limit step : Int) (hstep : 0 ≤ step) :
    ∀ (fuel : Nat) (pos x : Int), x ∈ tileGo limit step fuel pos →
      pos ≤ x ∧ x < limit := by
  intro fuel
  induction fuel with
  | zero => intro pos x hx; simp [tileGo] at hx
  | succ n ih =>
    intro pos x hx
    rw [tileGo] at hx
    by_cases hlt : pos < limit
    · rw [if_pos hlt] at hx
      rcases List.mem_cons.mp hx with h | h
      · omega
      · have := ih (pos + step) x h
        omega
    · rw [if_neg hlt] at hx
      simp at hx

@[simp] theorem Rect.width_mk (a b c d : Int) : (Rect.mk a b c d).width = c - a := rfl

@[simp] theorem Rect.height_mk (a b c d : Int) : (Rect.mk a b c d).height = d - b := rfl

theorem Rect.area_mk (a b c d : Int) : (Rect.mk a b c d).area = (c - a) * (d - b) := rfl

theorem subRectWidth_pos (w : Int) (hw : 0 < w) : 0 < subRectWidth w := by
  unfold subRectWidth SubRectMaxWidth
  split <;> omega

theorem subRectWidth_le (w : Int) (hw : 0 < w) : subRectWidth w ≤ SubRectMaxWidth := by
  unfold subRectWidth SubRectMaxWidth
  split <;> omega

theorem subRectHeight_pos (w : Int) (hw : 0 < w) :
    0 < SubRectMaxArea / subRectWidth w := by
  have h1 := subRectWidth_pos w hw
  have h2 := subRectWidth_le w hw
  rw [Int.lt_iff_add_one_le, zero_add, Int.le_ediv_iff_mul_le h1, one_mul]
  unfold SubRectMaxArea
  unfold SubRectMaxWidth at h2
  omega

theorem subRect_area_bound (w : Int) (hw : 0 < w) :
    subRectWidth w * (SubRectMaxArea / subRectWidth w) ≤ SubRectMaxArea := by
  have h1 := subRectWidth_pos w hw
  have h2 := Int.ediv_add_emod SubRectMaxArea (subRectWidth w)
  have h3 := Int.emod_nonneg SubRectMaxArea (by omega : subRectWidth w ≠ 0)
  omega

theorem splitRect_mem_bounds (r s : Rect) (hw : 0 < r.width) (hh : 0 < r.height)
    (hs : s ∈ splitRect r) :
    s.area ≤ SubRectMaxArea ∧ s.width ≤ SubRectMaxWidth := by
  have hsw1 := subRectWidth_pos r.width hw
  have hsw2 := subRectWidth_le r.width hw
  have hsh1 := subRectHeight_pos r.width hw
  have harea := subRect_area_bound r.width hw
  unfold splitRect at hs
  by_cases hc : r.width * r.height < SubRectMaxArea ∧ r.width < SubRectMaxWidth
  · rw [if_pos hc] at hs
    rw [List.mem_singleton] at hs
    subst hs
    exact ⟨le_of_lt hc.1, le_of_lt hc.2⟩
  · rw [if_neg hc] at hs
    simp only [List.mem_flatMap, List.mem_map] at hs
    obtain ⟨y, hy, x, hx, rfl⟩ := hs
    unfold tilePositions at hx hy
    have hxb := tileGo_mem_bounds _ _ (le_of_lt hsw1) _ _ _ hx
    have hyb := tileGo_mem_bounds _ _ (le_of_lt hsh1) _ _ _ hy
    simp only [Rect.area, Rect.width, Rect.height] at hsw1 hsw2 hsh1 harea hxb hyb ⊢
    constructor
    · refine le_trans (mul_le_mul ?_ ?_ ?_ ?_) harea <;> omega
    · omega
theorem ceilN_eq_pred_div (d s : Nat) (hd : 1 ≤ d) (hs : 1 ≤ s) :
    ceilN d s = (d - 1) / s + 1 := by
  unfold ceilN
  have e1 : d + s - 1 = (d - 1) + s := by omega
  rw [e1, Nat.add_div_right _ (by omega)]

theorem int_ceil_cast (w sw : Int) (hw : 0 < w) (hsw : 0 < sw) :
    ((ceilN w.toNat sw.toNat : Nat) : Int) = (w - 1) / sw + 1 := by
  rw [ceilN_eq_pred_div _ _ (by omega) (by omega)]
  rw [Nat.cast_add, Nat.cast_one, Int.natCast_div]
  rw [Int.toNat_of_nonneg (le_of_lt hsw)]
  have e1 : ((w.toNat - 1 : Nat) : Int) = w - 1 := by omega
  rw [e1]

theorem list_sum_map_const {α : Type} (l : List α) (c : Nat) :
    (l.map (fun _ => c)).sum = l.length * c := by
  rw [List.map_const', List.sum_replicate, smul_eq_mul]

theorem length_splitRect (r : Rect) (hw : 0 < r.width) (hh : 0 < r.height) :
    ((splitRect r).length : Int) = numSubRects r := by
  unfold splitRect numSubRects
  by_cases hc : r.width * r.height < SubRectMaxArea ∧ r.width < SubRectMaxWidth
  · rw [if_pos hc, if_pos hc]
    rfl
  · rw [if_neg hc, if_neg hc]
    simp only
    have hsw1 := subRectWidth_pos r.width hw
    have hsh1 := subRectHeight_pos r.width hw
    rw [List.flatMap_def, List.length_flatten, List.map_map]
    have h1 : (List.length ∘ fun y : Int =>
        (tilePositions r.tlx r.brx (subRectWidth r.width)).map
          (fun x => (⟨x, y, min (x + subRectWidth r.width) r.brx,
            min (y + SubRectMaxArea / subRectWidth r.width) r.bry⟩ : Rect)))
        = fun _ : Int => (tilePositions r.tlx r.brx (subRectWidth r.width)).length := by
      funext y
      simp
    rw [h1, list_sum_map_const,
      length_tilePositions _ _ _ (by omega : (1:Int) ≤ subRectWidth r.width),
      length_tilePositions _ _ _ (by omega : (1:Int) ≤ SubRectMaxArea / subRectWidth r.width)]
    have ew : r.brx - r.tlx = r.width := rfl
    have eh : r.bry - r.tly = r.height := rfl
    rw [ew, eh]
    push_cast
    rw [int_ceil_cast r.height _ hh hsh1, int_ceil_cast r.width _ hw hsw1]
    ring

/-- Row-major tiling as worded by the spec (section 4.5): with
`sw = min(w, SubRectMaxWidth)` and `sh = SubRectMaxArea / sw`, the tile of row
`i` and column `j` starts at `(tl.x + j*sw, tl.y + i*sh)` and is clamped to the
rectangle; there are `ceil(h/sh)` rows of `ceil(w/sw)` tiles each. -/
def specSubRectTiling (r : Rect) : List Rect :=
  let sw := min r.width SubRectMaxWidth
  let sh := SubRectMaxArea / sw
  (List.range (ceilN (r.bry - r.tly).toNat sh.toNat)).flatMap (fun i : Nat =>
    (List.range (ceilN (r.brx - r.tlx).toNat sw.toNat)).map (fun j : Nat =>
      ⟨r.tlx + (j : Int) * sw, r.tly + (i : Int) * sh,
       min (r.tlx + (j : Int) * sw + sw) r.brx,
       min (r.tly + (i : Int) * sh + sh) r.bry⟩))

theorem subRectWidth_eq_min (w : Int) : subRectWidth w = min w SubRectMaxWidth := by
  unfold subRectWidth
  rw [min_def]

theorem splitRect_eq_specTiling (r : Rect) (hw : 0 < r.width) (hh : 0 < r.height)
    (hc : ¬(r.width * r.height < SubRectMaxArea ∧ r.width < SubRectMaxWidth)) :
    splitRect r = specSubRectTiling r := by
  have hsw1 := subRectWidth_pos r.width hw
  have hsh1 := subRectHeight_pos r.width hw
  unfold splitRect specSubRectTiling
  rw [if_neg hc]
  simp only [← subRectWidth_eq_min]
  rw [tilePositions_eq_range_map _ _ _ (by omega : (1:Int) ≤ SubRectMaxArea / subRectWidth r.width),
    tilePositions_eq_range_map _ _ _ (by omega : (1:Int) ≤ subRectWidth r.width)]
  rw [List.flatMap_map]
  simp only [List.map_map, Function.comp_def]

theorem computeNumRects_foldl_shift (changed : List Rect) :
    ∀ acc : Int, changed.foldl (fun acc r => acc + numSubRects r) acc
      = acc + changed.foldl (fun acc r => acc + numSubRects r) 0 := by
  induction changed with
  | nil => intro acc; simp
  | cons a l ih =>
    intro acc
    simp only [List.foldl_cons]
    rw [ih (acc + numSubRects a), ih (0 + numSubRects a)]
    ring

theorem computeNumRects_eq_queued_length (changed : List Rect)
    (h : ∀ r ∈ changed, 0 < r.width ∧ 0 < r.height) :
    computeNumRects changed = ((writeRectsQueued changed).length : Int) := by
  unfold computeNumRects writeRectsQueued
  induction changed with
  | nil => simp
  | cons a l ih =>
    have ha := h a (List.mem_cons_self a l)
    have hl : ∀ r ∈ l, 0 < r.width ∧ 0 < r.height :=
      fun r hr => h r (List.mem_cons_of_mem a hr)
    simp only [List.foldl_cons, List.flatMap_cons, List.length_append]
    rw [computeNumRects_foldl_shift, ih hl, zero_add,
      ← length_splitRect a ha.1 ha.2]
    push_cast
    ring

/-!
Interleaving model of the worker loop for an Ordered encoder class
(EncodeManager::EncodeThread::worker, EncodeManager.cxx lines 888-974).

All rectangles of the frame are assumed to map to one encoder class whose
flags include EncoderOrdered.  Rectangle identities are natural numbers.
Each worker thread is in one of four phases; one atomic step of a thread
performs exactly the work the source does under one hold of queueMutex
(encoding itself happens with the mutex released, between the `owning` and
the queue-pop step):
  * idle + nonempty workQueue: pop the front WorkItem and start prepareRect
    (lines 906-912);
  * prepping: push the PreparedEntry onto encoderQueue[klass]; if the queue
    held an item already some other thread owns it, go idle, else take
    ownership (lines 927-934);
  * owning: grab the front entry and encode it with the mutex released
    (lines 937-944);
  * encoding: pop the front entry, push the OutputEntry, and keep ownership
    while the encoder queue is non-empty (lines 947-956).
A schedule (list of thread indices) resolves the nondeterminism; steps of a
thread whose phase cannot act leave the state unchanged.
-/

/-- Phase of one worker thread. -/
inductive WStat where
  | idle
  | prepping (r : Nat)
  | owning
  | encoding (r : Nat)
  deriving DecidableEq, Repr

/-- A thread holds the implicit per-class ownership while it is selecting or
encoding an entry of the encoder queue. -/
def WStat.busy : WStat → Bool
  | .owning => true
  | .encoding _ => true
  | _ => false

/-- The queues guarded by queueMutex, the worker phases, and two histories:
the order entries entered encoderQueue[klass] (pushLog) and the order
rectangles finished encoding (encLog). -/
structure SchedState where
  workQueue : List Nat
  encQueue : List Nat
  outQueue : List Nat
  threads : List WStat
  pushLog : List Nat
  encLog : List Nat
  deriving DecidableEq, Repr

/-- One atomic step of thread `t`. -/
def schedStep (s : SchedState) (t : Nat) : SchedState :=
  match s.threads[t]? with
  | none => s
  | some .idle =>
    match s.workQueue with
    | [] => s
    | r :: ws =>
      { s with workQueue := ws, threads := s.threads.set t (.prepping r) }
  | some (.prepping r) =>
    if s.encQueue.isEmpty then
      { s with encQueue := s.encQueue ++ [r], pushLog := s.pushLog ++ [r],
               threads := s.threads.set t .owning }
    else
      { s with encQueue := s.encQueue ++ [r], pushLog := s.pushLog ++ [r],
               threads := s.threads.set t .idle }
  | some .owning =>
    match s.encQueue with
    | [] => s
    | r :: _ => { s with threads := s.threads.set t (.encoding r) }
  | some (.encoding r) =>
    { s with encQueue := s.encQueue.drop 1,
             outQueue := s.outQueue ++ [r],
             encLog := s.encLog ++ [r],
             threads := s.threads.set t
               (if (s.encQueue.drop 1).isEmpty then .idle else .owning) }

/-- Run a schedule from a state. -/
def schedExec (sched : List Nat) (s : SchedState) : SchedState :=
  sched.foldl schedStep s

@[simp] theorem WStat.busy_idle : WStat.busy .idle = false := rfl

@[simp] theorem WStat.busy_prepping (r : Nat) : WStat.busy (.prepping r) = false := rfl

@[simp] theorem WStat.busy_owning : WStat.busy .owning = true := rfl

@[simp] theorem WStat.busy_encoding (r : Nat) : WStat.busy (.encoding r) = true := rfl

/-- Number of threads currently holding the per-class ownership. -/
def busyCount (s : SchedState) : Nat :=
  s.threads.countP WStat.busy

/-- A thread that is encoding must be encoding the front entry of the
encoder queue (the source pops the entry only after encoding it). -/
def encHeadOk : Option WStat → List Nat → Bool
  | some (.encoding r), q => q.head? == some r
  | _, _ => true

/-- Invariant of the ordered-encoder protocol: exactly one thread owns the
class queue whenever it is non-empty (and none otherwise); an encoding
thread works on the queue front; and the rectangles encoded so far followed
by the queued ones equal, in order, all rectangles ever pushed. -/
def SchedInv (s : SchedState) : Prop :=
  busyCount s = (if s.encQueue.isEmpty then 0 else 1)
  ∧ (∀ t, t < s.threads.length → encHeadOk s.threads[t]? s.encQueue = true)
  ∧ s.encLog ++ s.encQueue = s.pushLog

theorem countP_set_eq {α : Type} (p : α → Bool) :
    ∀ (l : List α) (t : Nat) (w v : α), l[t]? = some w →
      (l.set t v).countP p + (if p w then 1 else 0)
        = l.countP p + (if p v then 1 else 0) := by
  intro l
  induction l with
  | nil => intro t w v h; simp at h
  | cons a l ih =>
    intro t w v h
    cases t with
    | zero =>
      simp only [List.getElem?_cons_zero, Option.some.injEq] at h
      subst h
      rw [List.set_cons_zero]
      simp only [List.countP_cons]
      cases hpv : p v <;> cases hpw : p a <;> simp [hpv, hpw] <;> omega
    | succ n =>
      simp only [List.getElem?_cons_succ] at h
      rw [List.set_cons_succ]
      simp only [List.countP_cons]
      have hx := ih n w v h
      cases hpa : p a <;> simp [hpa] <;> omega

theorem two_le_countP {α : Type} (p : α → Bool) :
    ∀ (l : List α) (i j : Nat), i ≠ j → ∀ wi wj, l[i]? = some wi → l[j]? = some wj →
      p wi = true → p wj = true → 2 ≤ l.countP p := by
  intro l
  induction l with
  | nil => intro i j hij wi wj hi hj _ _; simp at hi
  | cons a l ih =>
    intro i j hij wi wj hi hj hpi hpj
    cases i with
    | zero =>
      cases j with
      | zero => omega
      | succ m =>
        simp only [List.getElem?_cons_zero, Option.some.injEq] at hi
        subst hi
        simp only [List.getElem?_cons_succ] at hj
        have hmem : wj ∈ l := List.getElem?_mem hj
        have h1 : 0 < l.countP p := List.countP_pos_iff.mpr ⟨wj, hmem, hpj⟩
        rw [List.countP_cons, hpi, if_pos rfl]
        omega
    | succ n =>
      cases j with
      | zero =>
        simp only [List.getElem?_cons_zero, Option.some.injEq] at hj
        subst hj
        simp only [List.getElem?_cons_succ] at hi
        have hmem : wi ∈ l := List.getElem?_mem hi
        have h1 : 0 < l.countP p := List.countP_pos_iff.mpr ⟨wi, hmem, hpi⟩
        rw [List.countP_cons, hpj, if_pos rfl]
        omega
      | succ m =>
        simp only [List.getElem?_cons_succ] at hi hj
        have := ih n m (by omega) wi wj hi hj hpi hpj
        simp only [List.countP_cons]
        omega

theorem lt_length_of_getElem? {α : Type} {l : List α} {t : Nat} {w : α}
    (h : l[t]? = some w) : t < l.length := by
  by_contra hc
  rw [List.getElem?_eq_none (by omega)] at h
  exact Option.noConfusion h

theorem schedStep_inv (s : SchedState) (t : Nat) (h : SchedInv s) :
    SchedInv (schedStep s t) := by
  obtain ⟨h1, h2, h3⟩ := h
  unfold schedStep
  cases hw : s.threads[t]? with
  | none => exact ⟨h1, h2, h3⟩
  | some w =>
    have htl : t < s.threads.length := lt_length_of_getElem? hw
    cases w with
    | idle =>
      cases hq : s.workQueue with
      | nil => exact ⟨h1, h2, h3⟩
      | cons r ws =>
        have hc := countP_set_eq WStat.busy s.threads t _ (WStat.prepping r) hw
        simp at hc
        refine ⟨?_, ?_, ?_⟩
        · dsimp only
          unfold busyCount at h1 ⊢
          dsimp only
          omega
        · intro u hu
          dsimp only at hu ⊢
          by_cases hut : u = t
          · subst hut
            rw [List.getElem?_set_self htl]
            rfl
          · rw [List.getElem?_set_ne (fun hh => hut hh.symm)]
            exact h2 u (by simpa using hu)
        · exact h3
    | prepping r =>
      have hc := countP_set_eq WStat.busy s.threads t _ WStat.owning hw
      have hc2 := countP_set_eq WStat.busy s.threads t _ WStat.idle hw
      simp at hc hc2
      cases hq : s.encQueue with
      | nil =>
        rw [hq] at h1 h2 h3
        simp only [List.isEmpty_nil, if_pos]
        refine ⟨?_, ?_, ?_⟩
        · dsimp only
          unfold busyCount at h1 ⊢
          simp only [List.isEmpty_nil, if_pos] at h1
          simp only [List.nil_append, List.isEmpty_cons, Bool.false_eq_true, if_false]
          omega
        · intro u hu
          dsimp only at hu ⊢
          by_cases hut : u = t
          · subst hut
            rw [List.getElem?_set_self htl]
            rfl
          · rw [List.getElem?_set_ne (fun hh => hut hh.symm)]
            unfold busyCount at h1
            simp only [List.isEmpty_nil, if_pos] at h1
            cases hg : s.threads[u]? with
            | none => rfl
            | some w2 =>
              cases w2 with
              | idle => rfl
              | prepping r2 => rfl
              | owning =>
                have hb := (List.countP_eq_zero.mp h1) _ (List.getElem?_mem hg)
                simp at hb
              | encoding r2 =>
                have hb := (List.countP_eq_zero.mp h1) _ (List.getElem?_mem hg)
                simp at hb
        · dsimp only
          simp only [List.nil_append]
          simp only [List.append_nil] at h3
          rw [h3]
      | cons a q' =>
        rw [hq] at h1 h2 h3
        simp only [List.isEmpty_cons, Bool.false_eq_true, if_false]
        refine ⟨?_, ?_, ?_⟩
        · dsimp only
          unfold busyCount at h1 ⊢
          simp only [List.isEmpty_cons, Bool.false_eq_true, if_false] at h1
          simp only [List.cons_append, List.isEmpty_cons, Bool.false_eq_true, if_false]
          omega
        · intro u hu
          dsimp only at hu ⊢
          by_cases hut : u = t
          · subst hut
            rw [List.getElem?_set_self htl]
            rfl
          · rw [List.getElem?_set_ne (fun hh => hut hh.symm)]
            have h2u := h2 u (by simpa using hu)
            cases hg : s.threads[u]? with
            | none => rfl
            | some w2 =>
              rw [hg] at h2u
              cases w2 with
              | idle => rfl
              | prepping r2 => rfl
              | owning => rfl
              | encoding r2 =>
                simp only [encHeadOk, List.cons_append, List.head?_cons] at h2u ⊢
                exact h2u
        · dsimp only
          rw [← List.append_assoc, h3]
    | owning =>
      cases hq : s.encQueue with
      | nil => exact ⟨h1, h2, h3⟩
      | cons a q' =>
        rw [hq] at h1 h2 h3
        have hc := countP_set_eq WStat.busy s.threads t _ (WStat.encoding a) hw
        simp at hc
        refine ⟨?_, ?_, ?_⟩
        · unfold busyCount at h1 ⊢
          dsimp only
          omega
        · intro u hu
          dsimp only at hu ⊢
          by_cases hut : u = t
          · subst hut
            rw [List.getElem?_set_self htl]
            simp [encHeadOk]
          · rw [List.getElem?_set_ne (fun hh => hut hh.symm)]
            exact h2 u (by simpa using hu)
        · exact h3
    | encoding r =>
      have h2t := h2 t htl
      rw [hw] at h2t
      cases hq : s.encQueue with
      | nil =>
        rw [hq] at h2t
        simp [encHeadOk] at h2t
      | cons a q' =>
        rw [hq] at h1 h2 h3 h2t
        simp only [encHeadOk, List.head?_cons] at h2t
        have har : a = r := by simpa using h2t
        subst har
        unfold busyCount at h1
        simp only [List.isEmpty_cons, Bool.false_eq_true, if_false] at h1
        simp only [List.drop_succ_cons, List.drop_zero]
        cases q' with
        | nil =>
          have hred : (if ([] : List Nat).isEmpty = true then WStat.idle
              else WStat.owning) = WStat.idle := rfl
          rw [hred]
          have hc := countP_set_eq WStat.busy s.threads t _ WStat.idle hw
          simp at hc
          refine ⟨?_, ?_, ?_⟩
          · unfold busyCount
            dsimp only
            simp only [List.isEmpty_nil, if_pos]
            omega
          · intro u hu
            dsimp only at hu ⊢
            by_cases hut : u = t
            · subst hut
              rw [List.getElem?_set_self htl]
              rfl
            · rw [List.getElem?_set_ne (fun hh => hut hh.symm)]
              cases hg : s.threads[u]? with
              | none => rfl
              | some w2 =>
                cases w2 with
                | idle => rfl
                | prepping r2 => rfl
                | owning =>
                  have h2c := two_le_countP WStat.busy s.threads t u
                    (fun hh => hut hh.symm) _ _ hw hg rfl rfl
                  omega
                | encoding r2 =>
                  have h2c := two_le_countP WStat.busy s.threads t u
                    (fun hh => hut hh.symm) _ _ hw hg rfl rfl
                  omega
          · dsimp only
            simp only [List.append_nil]
            simpa using h3
        | cons b q'' =>
          have hred : (if (b :: q'' : List Nat).isEmpty = true then WStat.idle
              else WStat.owning) = WStat.owning := rfl
          rw [hred]
          have hc := countP_set_eq WStat.busy s.threads t _ WStat.owning hw
          simp at hc
          refine ⟨?_, ?_, ?_⟩
          · unfold busyCount
            dsimp only
            simp only [List.isEmpty_cons, Bool.false_eq_true, if_false]
            omega
          · intro u hu
            dsimp only at hu ⊢
            by_cases hut : u = t
            · subst hut
              rw [List.getElem?_set_self htl]
              rfl
            · rw [List.getElem?_set_ne (fun hh => hut hh.symm)]
              cases hg : s.threads[u]? with
              | none => rfl
              | some w2 =>
                cases w2 with
                | idle => rfl
                | prepping r2 => rfl
                | owning =>
                  have h2c := two_le_countP WStat.busy s.threads t u
                    (fun hh => hut hh.symm) _ _ hw hg rfl rfl
                  omega
                | encoding r2 =>
                  have h2c := two_le_countP WStat.busy s.threads t u
                    (fun hh => hut hh.symm) _ _ hw hg rfl rfl
                  omega
          · dsimp only
            rw [List.append_assoc]
            simpa using h3

/-- Invariant preservation along any schedule. -/
theorem schedExec_inv (sched : List Nat) (s : SchedState) (h : SchedInv s) :
    SchedInv (schedExec sched s) := by
  induction sched generalizing s with
  | nil => exact h
  | cons t ts ih => exact ih _ (schedStep_inv s t h)

theorem length_specSubRectTiling (r : Rect) :
    (specSubRectTiling r).length
      = ceilN (r.bry - r.tly).toNat (SubRectMaxArea / min r.width SubRectMaxWidth).toNat
        * ceilN (r.brx - r.tlx).toNat (min r.width SubRectMaxWidth).toNat := by
  unfold specSubRectTiling
  rw [List.flatMap_def, List.length_flatten, List.map_map]
  have h1 : ∀ f : Nat → Rect, ∀ n : Nat, (List.length ∘ fun _ : Nat => (List.range n).map f)
      = fun _ : Nat => n := by
    intro f n
    funext i
    simp
  simp only [Function.comp_def, List.length_map, List.length_range]
  rw [list_sum_map_const, List.length_range]

/--
Claim C1 (code_bug): EncodeThread::prepareRect decides `useRLE` with
`rleRuns <= rect.area() * 2` (EncodeManager.cxx line 1034).  Since the
horizontal runs partition the pixels, `rleRuns ≤ area` always holds, so the
test is vacuously true and the RLE variant (BitmapRLE / IndexedRLE) is chosen
for every palette of size 2 or more — not "iff rleRuns · 2 ≤ rect.area" as the
claim (and the comment directly above the code line: RLE is to be used when it
halves the effective pixel count) states.  The multiplier sits on the wrong
side of the comparison.
-/
theorem C1_prepareRect_rle_always (rleRuns area : Int) (h0 : 0 ≤ area)
    (hruns : rleRuns ≤ area) :
    useRLE rleRuns area = true
    ∧ selectEncoderType 2 rleRuns area = .bitmapRLE
    ∧ ∀ n : Nat, selectEncoderType (n + 3) rleRuns area = .indexedRLE := by
  have h : useRLE rleRuns area = true := by
    unfold useRLE
    rw [decide_eq_true_eq]
    omega
  refine ⟨h, ?_, ?_⟩
  · show (if useRLE rleRuns area = true then EncoderType.bitmapRLE else .bitmap)
        = .bitmapRLE
    rw [h, if_pos rfl]
  · intro n
    show (if useRLE rleRuns area = true then EncoderType.indexedRLE else .indexed)
        = .indexedRLE
    rw [h, if_pos rfl]

/-- Witness for C1 at the failing input: a 2 by 1 rectangle holding two
distinct colours has area 2 and rleRuns 2; the claimed rule demands the
non-RLE variant (2·2 ≤ 2 is false) but the code picks BitmapRLE. -/
theorem C1_witness :
    ((0 : Int) ≤ 2 ∧ (2 : Int) ≤ 2)
    ∧ (useRLE 2 2 = true ∧ selectEncoderType 2 2 2 = .bitmapRLE
        ∧ ∀ n : Nat, selectEncoderType (n + 3) 2 2 = .indexedRLE)
    ∧ ¬(2 * 2 ≤ (2 : Int)) :=
  ⟨⟨by decide, by decide⟩, C1_prepareRect_rle_always 2 2 (by decide) (by decide),
    by decide⟩

/--
Counterexample for claim C2: writeRects does queue sub-rectangles whose width
equals SubRectMaxWidth and whose area equals SubRectMaxArea.  A 2048 by 1
rectangle is split (w < SubRectMaxWidth fails) into itself, width exactly
2048; a 4096 by 1024 rectangle yields the tile 2048 by 32 of area exactly
65536.  The strict bounds of the claim are therefore false; only the
non-strict ones hold (matching the source comment "no larger than this
area, ... no wider than this width").
-/
theorem C2_counterexample :
    (⟨0, 0, 2048, 1⟩ : Rect) ∈ splitRect ⟨0, 0, 2048, 1⟩
    ∧ ¬(Rect.width ⟨0, 0, 2048, 1⟩ < SubRectMaxWidth)
    ∧ (⟨0, 0, 2048, 32⟩ : Rect) ∈ splitRect ⟨0, 0, 4096, 1024⟩
    ∧ ¬(Rect.area ⟨0, 0, 2048, 32⟩ < SubRectMaxArea) := by
  refine ⟨by decide, by decide, by decide, by decide⟩

/--
Claim C2 (amended): every sub-rectangle queued by writeRects for a proper
rectangle has area at most SubRectMaxArea (65536) and width at most
SubRectMaxWidth (2048); the bounds are non-strict and are attained.
-/
theorem C2_subrect_bounds (r s : Rect) (hw : 0 < r.width) (hh : 0 < r.height)
    (hs : s ∈ splitRect r) :
    s.area ≤ SubRectMaxArea ∧ s.width ≤ SubRectMaxWidth :=
  splitRect_mem_bounds r s hw hh hs

/-- Witness for C2 on the 4096 by 1024 rectangle and its first tile. -/
theorem C2_witness :
    ((0 : Int) < Rect.width ⟨0, 0, 4096, 1024⟩
      ∧ (0 : Int) < Rect.height ⟨0, 0, 4096, 1024⟩
      ∧ (⟨0, 0, 2048, 32⟩ : Rect) ∈ splitRect ⟨0, 0, 4096, 1024⟩)
    ∧ (Rect.area ⟨0, 0, 2048, 32⟩ ≤ SubRectMaxArea
      ∧ Rect.width ⟨0, 0, 2048, 32⟩ ≤ SubRectMaxWidth) :=
  ⟨⟨by decide, by decide, by decide⟩,
    C2_subrect_bounds ⟨0, 0, 4096, 1024⟩ ⟨0, 0, 2048, 32⟩ (by decide) (by decide)
      (by decide)⟩

/--
Claim C3: writeRects keeps a proper rectangle intact exactly when
w·h < SubRectMaxArea and w < SubRectMaxWidth; otherwise it tiles it row-major
with sw = min(w, SubRectMaxWidth) and sh = SubRectMaxArea / sw into
ceil(h/sh) rows of ceil(w/sw) tiles (the spec-side tiling
specSubRectTiling), hence ceil(w/sw) · ceil(h/sh) sub-rectangles in total.
-/
theorem C3_writeRects_split (r : Rect) (hw : 0 < r.width) (hh : 0 < r.height) :
    (r.width * r.height < SubRectMaxArea ∧ r.width < SubRectMaxWidth →
      splitRect r = [r])
    ∧ (¬(r.width * r.height < SubRectMaxArea ∧ r.width < SubRectMaxWidth) →
      splitRect r = specSubRectTiling r
      ∧ (splitRect r).length
          = ceilN (r.bry - r.tly).toNat
              (SubRectMaxArea / min r.width SubRectMaxWidth).toNat
            * ceilN (r.brx - r.tlx).toNat (min r.width SubRectMaxWidth).toNat) := by
  constructor
  · intro hc
    unfold splitRect
    rw [if_pos hc]
  · intro hc
    have heq := splitRect_eq_specTiling r hw hh hc
    exact ⟨heq, by rw [heq, length_specSubRectTiling]⟩

/-- Witness for C3: the spec's scenario (0,0,4096,1024): sw = 2048, sh = 32,
64 sub-rectangles. -/
theorem C3_witness :
    ((0 : Int) < Rect.width ⟨0, 0, 4096, 1024⟩
      ∧ (0 : Int) < Rect.height ⟨0, 0, 4096, 1024⟩)
    ∧ (¬(Rect.width ⟨0, 0, 4096, 1024⟩ * Rect.height ⟨0, 0, 4096, 1024⟩
          < SubRectMaxArea ∧ Rect.width ⟨0, 0, 4096, 1024⟩ < SubRectMaxWidth) →
        splitRect ⟨0, 0, 4096, 1024⟩ = specSubRectTiling ⟨0, 0, 4096, 1024⟩
        ∧ (splitRect ⟨0, 0, 4096, 1024⟩).length
            = ceilN ((1024 : Int) - 0).toNat
                (SubRectMaxArea / min (Rect.width ⟨0, 0, 4096, 1024⟩) SubRectMaxWidth).toNat
              * ceilN ((4096 : Int) - 0).toNat
                  (min (Rect.width ⟨0, 0, 4096, 1024⟩) SubRectMaxWidth).toNat)
    ∧ min (Rect.width ⟨0, 0, 4096, 1024⟩) SubRectMaxWidth = 2048
    ∧ SubRectMaxArea / min (Rect.width ⟨0, 0, 4096, 1024⟩) SubRectMaxWidth = 32
    ∧ (splitRect ⟨0, 0, 4096, 1024⟩).length = 64 :=
  ⟨⟨by decide, by decide⟩, (C3_writeRects_split ⟨0, 0, 4096, 1024⟩ (by decide) (by decide)).2,
    by decide, by decide, by decide⟩

/--
Claim C4: in writeUpdate, when the peer does not support LastRect, the
rectangle count written in the framebuffer-update header (CopyRect count from
ui.copied, plus computeNumRects(ui.changed), plus 1 for a supplied cursor)
equals the number of rectangle records actually emitted (one CopyRect record
per copied rectangle, one startRect/endRect pair per sub-rectangle queued by
writeRects and drained by flush, plus one pair for the cursor); when the peer
supports LastRect the header carries the sentinel 0xFFFF instead.
-/
theorem C4_writeUpdate_nRects (lastRect : Bool) (copied changed : List Rect)
    (cursor : Bool) (h : ∀ r ∈ changed, 0 < r.width ∧ 0 < r.height) :
    (lastRect = false →
      writeUpdateNRects lastRect copied changed cursor
        = (writeUpdateEmitted copied changed cursor : Int)
      ∧ writeUpdateEmitted copied changed cursor
        = copied.length + (writeRectsQueued changed).length
          + (if cursor then 1 else 0))
    ∧ (lastRect = true →
      writeUpdateNRects lastRect copied changed cursor = 65535) := by
  constructor
  · intro hl
    subst hl
    constructor
    · unfold writeUpdateNRects writeUpdateEmitted
      rw [if_neg (by simp)]
      rw [computeNumRects_eq_queued_length changed h]
      cases cursor <;> push_cast <;> ring
    · rfl
  · intro hl
    subst hl
    unfold writeUpdateNRects
    rw [if_pos rfl]

/-- Witness for C4: one copied rectangle, one small and one large changed
rectangle, a cursor; header count 1 + (1 + 64) + 1 = 67 on the non-LastRect
path, sentinel 65535 on the LastRect path. -/
theorem C4_witness :
    (∀ r ∈ [(⟨0, 0, 10, 10⟩ : Rect), ⟨0, 0, 4096, 1024⟩],
        0 < r.width ∧ 0 < r.height)
    ∧ ((false = false →
        writeUpdateNRects false [⟨0, 0, 5, 5⟩] [⟨0, 0, 10, 10⟩, ⟨0, 0, 4096, 1024⟩] true
          = (writeUpdateEmitted [⟨0, 0, 5, 5⟩] [⟨0, 0, 10, 10⟩, ⟨0, 0, 4096, 1024⟩] true : Int)
        ∧ writeUpdateEmitted [⟨0, 0, 5, 5⟩] [⟨0, 0, 10, 10⟩, ⟨0, 0, 4096, 1024⟩] true
          = [(⟨0, 0, 5, 5⟩ : Rect)].length
            + (writeRectsQueued [⟨0, 0, 10, 10⟩, ⟨0, 0, 4096, 1024⟩]).length
            + (if true then 1 else 0))
      ∧ (false = true →
        writeUpdateNRects false [⟨0, 0, 5, 5⟩] [⟨0, 0, 10, 10⟩, ⟨0, 0, 4096, 1024⟩] true
          = 65535))
    ∧ writeUpdateNRects false [⟨0, 0, 5, 5⟩] [⟨0, 0, 10, 10⟩, ⟨0, 0, 4096, 1024⟩] true = 67
    ∧ writeUpdateNRects true [⟨0, 0, 5, 5⟩] [⟨0, 0, 10, 10⟩, ⟨0, 0, 4096, 1024⟩] true = 65535 :=
  ⟨by decide,
    C4_writeUpdate_nRects false [⟨0, 0, 5, 5⟩] [⟨0, 0, 10, 10⟩, ⟨0, 0, 4096, 1024⟩] true
      (by decide),
    by decide, by decide⟩

/--
Counterexample for claim C5: writeClipboardCaps checks only
supportsExtendedClipboard; with no action bit at all advertised in
cp.clipboardFlags (in particular no caps bit) it still succeeds and emits a
full message, so "every ... operation checks ... for each clipboard action the
specific action bit" is false for the caps operation.
-/
theorem C5_counterexample :
    writeClipboardCaps ⟨false, true, 0⟩ false 0 []
      = .ok [3, 0, 0, 0, 255, 255, 255, 252, 1, 0, 0, 0]
    ∧ ConnParams.clipboardFlags ⟨false, true, 0⟩ &&& clipboardCaps = 0 :=
  ⟨rfl, by decide⟩

/--
Claim C5 (amended): writeFence fails without writing when the peer lacks the
fence capability; every extended-clipboard write operation fails without
writing when the peer lacks supportsExtendedClipboard; and the request, peek,
notify and provide operations additionally fail without writing when their
specific action bit is absent from cp.clipboardFlags().  (writeClipboardCaps
checks no action bit.)  In the source all these throws precede the first byte
written, which the error result of the embedding reflects.
-/
theorem C5_capability_checks (cp : ConnParams) (client : Bool)
    (fenceFlags fenceLen : Nat) (fenceData : List Nat) (flags caps : Nat)
    (lengths : List Nat) (entries : List (Nat × List Nat)) :
    (cp.supportsFence = false →
      writeFence cp client fenceFlags fenceLen fenceData = .error .peerNoFence)
    ∧ (cp.supportsExtendedClipboard = false →
      writeClipboardCaps cp client caps lengths = .error .peerNoExtClipboard
      ∧ writeClipboardRequest cp client flags = .error .peerNoExtClipboard
      ∧ writeClipboardPeek cp client flags = .error .peerNoExtClipboard
      ∧ writeClipboardNotify cp client flags = .error .peerNoExtClipboard
      ∧ writeClipboardProvide cp client flags entries = .error .peerNoExtClipboard)
    ∧ (cp.supportsExtendedClipboard = true →
      (cp.clipboardFlags &&& clipboardRequest = 0 →
        writeClipboardRequest cp client flags = .error .peerNoRequestAction)
      ∧ (cp.clipboardFlags &&& clipboardPeek = 0 →
        writeClipboardPeek cp client flags = .error .peerNoPeekAction)
      ∧ (cp.clipboardFlags &&& clipboardNotify = 0 →
        writeClipboardNotify cp client flags = .error .peerNoNotifyAction)
      ∧ (cp.clipboardFlags &&& clipboardProvide = 0 →
        writeClipboardProvide cp client flags entries = .error .peerNoProvideAction)) := by
  refine ⟨?_, ?_, ?_⟩
  · intro h
    unfold writeFence
    rw [if_pos h]
  · intro h
    refine ⟨?_, ?_, ?_, ?_, ?_⟩
    · unfold writeClipboardCaps
      rw [if_pos h]
    · unfold writeClipboardRequest
      rw [if_pos h]
    · unfold writeClipboardPeek
      rw [if_pos h]
    · unfold writeClipboardNotify
      rw [if_pos h]
    · unfold writeClipboardProvide
      rw [if_pos h]
  · intro hext
    refine ⟨?_, ?_, ?_, ?_⟩
    · intro h0
      unfold writeClipboardRequest
      rw [if_neg (by simp [hext]), if_pos h0]
    · intro h0
      unfold writeClipboardPeek
      rw [if_neg (by simp [hext]), if_pos h0]
    · intro h0
      unfold writeClipboardNotify
      rw [if_neg (by simp [hext]), if_pos h0]
    · intro h0
      unfold writeClipboardProvide
      rw [if_neg (by simp [hext]), if_pos h0]

/-- Witness for C5 with a peer supporting nothing, and a peer supporting the
extension but advertising no action bits. -/
theorem C5_witness :
    (ConnParams.supportsFence ⟨false, false, 0⟩ = false
      ∧ writeFence ⟨false, false, 0⟩ true 0 0 [] = .error .peerNoFence)
    ∧ (ConnParams.supportsExtendedClipboard ⟨false, false, 0⟩ = false
      ∧ writeClipboardProvide ⟨false, false, 0⟩ true 0 [] = .error .peerNoExtClipboard)
    ∧ (ConnParams.clipboardFlags ⟨false, true, 0⟩ &&& clipboardRequest = 0
      ∧ writeClipboardRequest ⟨false, true, 0⟩ true 0 = .error .peerNoRequestAction) :=
  ⟨⟨rfl, (C5_capability_checks ⟨false, false, 0⟩ true 0 0 [] 0 0 [] []).1 rfl⟩,
    ⟨rfl, ((C5_capability_checks ⟨false, false, 0⟩ true 0 0 [] 0 0 [] []).2.1 rfl).2.2.2.2⟩,
    ⟨by decide, ((C5_capability_checks ⟨false, true, 0⟩ true 0 0 [] 0 0 [] []).2.2 rfl).1 rfl⟩⟩

instance (s : SchedState) : Decidable (SchedInv s) := by
  unfold SchedInv
  exact instDecidableAnd

/--
Counterexample for claim C9: two workers, work queue holding rectangles 1
then 2.  Worker 0 pops rectangle 1 first, but worker 1 pops rectangle 2,
finishes prepareRect first, pushes it onto the empty encoder queue, becomes
the owner and encodes rectangle 2 before rectangle 1 is even queued.  Encode
order is [2, 1] while the work-queue push order was [1, 2]: rectangles of an
ordered class are encoded in encoder-queue arrival order, not work-queue
order.
-/
theorem C9_counterexample :
    (⟨[1, 2], [], [], [.idle, .idle], [], []⟩ : SchedState).workQueue = [1, 2]
    ∧ SchedInv ⟨[1, 2], [], [], [.idle, .idle], [], []⟩
    ∧ (schedExec [0, 1, 1, 1, 0, 1, 1, 1]
        ⟨[1, 2], [], [], [.idle, .idle], [], []⟩).encLog = [2, 1]
    ∧ [2, 1] ≠ [1, 2] := by
  refine ⟨rfl, by decide, by decide, by decide⟩

/--
Claim C9 (amended): for every schedule, at every point of the run at most one
worker thread at a time holds an ordered encoder class (selects or encodes
its entries), and the rectangles encoded so far, in order, are exactly an
initial segment of the order in which prepared entries were pushed onto the
per-class encoder queue (encLog ++ encQueue = pushLog).  This order is the
preparation-completion order, not necessarily the work-queue push order.
-/
theorem C9_ordered_class (sched : List Nat) (s : SchedState) (h : SchedInv s) :
    (∀ k, busyCount (schedExec (sched.take k) s) ≤ 1)
    ∧ (schedExec sched s).encLog ++ (schedExec sched s).encQueue
        = (schedExec sched s).pushLog := by
  constructor
  · intro k
    obtain ⟨a, -, -⟩ := schedExec_inv (sched.take k) s h
    rw [a]
    split <;> omega
  · exact (schedExec_inv sched s h).2.2

/-- Witness for C9 on the two-worker schedule of the counterexample state. -/
theorem C9_witness :
    SchedInv ⟨[1, 2], [], [], [.idle, .idle], [], []⟩
    ∧ ((∀ k, busyCount (schedExec (List.take k [0, 1, 1, 1, 0, 1, 1, 1])
          ⟨[1, 2], [], [], [.idle, .idle], [], []⟩) ≤ 1)
      ∧ (schedExec [0, 1, 1, 1, 0, 1, 1, 1]
            ⟨[1, 2], [], [], [.idle, .idle], [], []⟩).encLog
          ++ (schedExec [0, 1, 1, 1, 0, 1, 1, 1]
                ⟨[1, 2], [], [], [.idle, .idle], [], []⟩).encQueue
          = (schedExec [0, 1, 1, 1, 0, 1, 1, 1]
                ⟨[1, 2], [], [], [.idle, .idle], [], []⟩).pushLog) :=
  ⟨by decide, C9_ordered_class [0, 1, 1, 1, 0, 1, 1, 1] _ (by decide)⟩

theorem skipBytes_three (a b c : Nat) (x : List Nat) :
    skipBytes 3 (a :: b :: c :: x) = .ok x := by
  unfold skipBytes
  rw [if_pos (by simp)]
  rfl

theorem high_bit_ge (len : Nat) (h : len &&& 2147483648 ≠ 0) :
    2147483648 ≤ len := by
  have e : (2147483648 : Nat) = 2 ^ 31 := by norm_num
  rw [e, Nat.and_two_pow, Nat.testBit_to_div_mod] at h
  rw [show (2 : Nat) ^ 31 = 2147483648 by norm_num] at h
  have hd : len / 2147483648 % 2 = 1 := by
    by_contra hc
    simp [hc] at h
  omega

theorem high_bit_lt (len : Nat) (hlen : len < 4294967296)
    (h : len &&& 2147483648 = 0) : len < 2147483648 := by
  by_contra hc
  have e : (2147483648 : Nat) = 2 ^ 31 := by norm_num
  rw [e, Nat.and_two_pow, Nat.testBit_to_div_mod] at h
  have h1 : len / 2 ^ 31 = 1 := by
    rw [← e]
    omega
  rw [h1] at h
  simp at h

theorem cutTextDispatchLen_eq (len : Nat) (hlen : len < 4294967296)
    (hge : 2147483648 ≤ len) :
    cutTextDispatchLen len
      = if len = 2147483648 then -2147483648 else (4294967296 : Int) - len := by
  unfold cutTextDispatchLen negS32 s32ofU32
  rw [if_neg (by omega : ¬len < 2147483648)]
  have e1 : (-((len : Int) - 4294967296)) % 4294967296 = 4294967296 - (len : Int) := by
    rw [Int.emod_eq_of_lt (by omega) (by omega)]
    omega
  rw [e1]
  by_cases h2 : len = 2147483648
  · subst h2
    decide
  · rw [if_neg h2, if_pos (by omega)]
    omega

/--
Counterexample for claim C6: the length word 0x80000000 has the high bit set,
but its 32-bit two's-complement negation is itself (-2^31), which is not
positive; readCutText then calls readExtendedClipboard with a negative length
and the message is rejected as invalid rather than being dispatched with a
positive length.
-/
theorem C6_counterexample :
    ((2147483648 : Nat) &&& 2147483648 ≠ 0)
    ∧ cutTextDispatchLen 2147483648 = -2147483648
    ∧ ¬(0 < cutTextDispatchLen 2147483648)
    ∧ readCutText 262144 [0, 0, 0, 128, 0, 0, 0]
        = .error .invalidExtendedClipboardMsg :=
  ⟨by decide, by decide, by decide, rfl⟩

/--
Claim C6 (amended): for a cut-text body of 3 pad bytes, a big-endian u32
length and the payload: if the high bit of the length is set, the remainder
is reinterpreted as a two's-complement signed value, negated in 32-bit two's
complement, and dispatched to readExtendedClipboard; the negated value is the
positive 2^32 - len for every such length except 0x80000000, whose negation
is itself (-2^31) and makes readExtendedClipboard raise protocol-invalid.
Otherwise if len > maxCutText exactly len bytes are skipped and no handler is
called; otherwise exactly len bytes are read and delivered to the cutText
handler.
-/
theorem C6_readCutText (maxCutText len : Nat) (body : List Nat)
    (hlen : len < 4294967296) :
    (len &&& 2147483648 ≠ 0 →
      readCutText maxCutText ([0, 0, 0] ++ u32be len ++ body)
        = (readExtendedClipboard maxCutText (cutTextDispatchLen len) body).map
            (fun p => (.ext p.1, p.2))
      ∧ (len ≠ 2147483648 →
          cutTextDispatchLen len = (4294967296 : Int) - len
          ∧ 0 < cutTextDispatchLen len)
      ∧ (len = 2147483648 →
          cutTextDispatchLen len = -2147483648
          ∧ readCutText maxCutText ([0, 0, 0] ++ u32be len ++ body)
              = .error .invalidExtendedClipboardMsg))
    ∧ (len &&& 2147483648 = 0 → maxCutText < len → len ≤ body.length →
        readCutText maxCutText ([0, 0, 0] ++ u32be len ++ body)
          = .ok (.ignored, body.drop len))
    ∧ (len &&& 2147483648 = 0 → len ≤ maxCutText → len ≤ body.length →
        readCutText maxCutText ([0, 0, 0] ++ u32be len ++ body)
          = .ok (.text (body.take len) len, body.drop len)) := by
  refine ⟨?_, ?_, ?_⟩
  · intro hbit
    have hge := high_bit_ge len hbit
    refine ⟨?_, ?_, ?_⟩
    · unfold readCutText
      simp only [List.cons_append, List.nil_append]
      rw [skipBytes_three]
      simp only [bind, Except.bind]
      rw [readU32_u32be len hlen]
      dsimp only
      rw [if_pos hbit]
      cases hres : readExtendedClipboard maxCutText (cutTextDispatchLen len) body with
      | error e => simp [Except.map]
      | ok p => simp [Except.map]
    · intro hne
      have hd := cutTextDispatchLen_eq len hlen hge
      rw [if_neg hne] at hd
      exact ⟨hd, by rw [hd]; omega⟩
    · intro heq
      have hd := cutTextDispatchLen_eq len hlen hge
      rw [if_pos heq] at hd
      refine ⟨hd, ?_⟩
      unfold readCutText
      simp only [List.cons_append, List.nil_append]
      rw [skipBytes_three]
      simp only [bind, Except.bind]
      rw [readU32_u32be len hlen]
      dsimp only
      rw [if_pos hbit, hd]
      unfold readExtendedClipboard
      rw [if_pos (by omega)]
  · intro hbit hmax hblen
    unfold readCutText
    simp only [List.cons_append, List.nil_append]
    rw [skipBytes_three]
    simp only [bind, Except.bind]
    rw [readU32_u32be len hlen]
    dsimp only
    rw [if_neg (by simp [hbit]), if_pos hmax]
    unfold skipBytes
    rw [if_pos hblen]
  · intro hbit hmax hblen
    unfold readCutText
    simp only [List.cons_append, List.nil_append]
    rw [skipBytes_three]
    simp only [bind, Except.bind]
    rw [readU32_u32be len hlen]
    dsimp only
    rw [if_neg (by simp [hbit]), if_neg (by omega)]
    unfold readBytesN
    rw [if_pos hblen]

/-- Witness for C6 at length 0x80000004 (high bit set, not 0x80000000):
dispatched as the positive length 2^32 - len = 2147483644. -/
theorem C6_witness :
    ((2147483652 : Nat) < 4294967296)
    ∧ ((2147483652 &&& 2147483648 ≠ 0 →
        readCutText 262144 ([0, 0, 0] ++ u32be 2147483652 ++ [])
          = (readExtendedClipboard 262144 (cutTextDispatchLen 2147483652) []).map
              (fun p => (.ext p.1, p.2))
        ∧ ((2147483652 : Nat) ≠ 2147483648 →
            cutTextDispatchLen 2147483652 = (4294967296 : Int) - (2147483652 : Nat)
            ∧ 0 < cutTextDispatchLen 2147483652)
        ∧ ((2147483652 : Nat) = 2147483648 →
            cutTextDispatchLen 2147483652 = -2147483648
            ∧ readCutText 262144 ([0, 0, 0] ++ u32be 2147483652 ++ [])
                = .error .invalidExtendedClipboardMsg))
      ∧ (2147483652 &&& 2147483648 = 0 → 262144 < 2147483652 →
          2147483652 ≤ List.length ([] : List Nat) →
          readCutText 262144 ([0, 0, 0] ++ u32be 2147483652 ++ [])
            = .ok (.ignored, List.drop 2147483652 []))
      ∧ (2147483652 &&& 2147483648 = 0 → 2147483652 ≤ 262144 →
          2147483652 ≤ List.length ([] : List Nat) →
          readCutText 262144 ([0, 0, 0] ++ u32be 2147483652 ++ [])
            = .ok (.text (List.take 2147483652 []) 2147483652, List.drop 2147483652 [])))
    ∧ cutTextDispatchLen 2147483652 = 2147483644 := by
  refine ⟨by decide, ?_, by decide⟩
  exact C6_readCutText 262144 2147483652 [] (by decide)

/--
Counterexample for claim C8: the round trip does not hold for every flags
value — writeFence refuses flags with bits outside fenceFlagsSupported (and
peers without the fence capability), so for flags = 8 nothing is written and
nothing can be parsed back, even with len = 0 ≤ 64.
-/
theorem C8_counterexample :
    writeFence ⟨true, false, 0⟩ true 8 0 [] = .error .unknownFenceFlags
    ∧ ((0 : Nat) ≤ 64) :=
  ⟨rfl, by decide⟩

/--
Claim C8 (amended): for every flags value within fenceFlagsSupported, when
the peer supports fences, every len ≤ 64 and len-byte payload round-trips:
parsing the bytes produced by writeFence (minus the type byte consumed by
the message router) delivers exactly (flags, len, data) to the fence handler.
-/
theorem C8_fence_roundtrip (cp : ConnParams) (client : Bool) (flags len : Nat)
    (data : List Nat) (hfence : cp.supportsFence = true)
    (hflags : flags &&& (u32Mask ^^^ fenceFlagsSupported) = 0)
    (hflags32 : flags < 4294967296) (hlen : len ≤ 64) (hdata : data.length = len) :
    ∃ msg, writeFence cp client flags len data = .ok msg
      ∧ readFence (msg.drop 1) = .ok (.fence flags len data, []) := by
  have htake : data.take len = data := by
    rw [← hdata]
    exact List.take_length data
  refine ⟨[if client then msgTypeClientFence else msgTypeServerFence]
      ++ [0, 0, 0] ++ u32be flags ++ [len] ++ data, ?_, ?_⟩
  · unfold writeFence
    rw [if_neg (by simp [hfence]), if_neg (by omega), if_neg (by simp [hflags]), htake]
  · have e : (([if client then msgTypeClientFence else msgTypeServerFence]
        ++ [0, 0, 0] ++ u32be flags ++ [len] ++ data).drop 1)
        = 0 :: 0 :: 0 :: (u32be flags ++ (len :: data)) := by
      simp
    rw [e]
    unfold readFence
    rw [skipBytes_three]
    simp only [bind, Except.bind]
    rw [readU32_u32be flags hflags32]
    dsimp only
    rw [readU8_append]
    dsimp only
    rw [if_neg (by omega)]
    have hb : readBytesN len data = .ok (data, []) := by
      have h2 := readBytesN_append data []
      rw [List.append_nil, hdata] at h2
      exact h2
    rw [hb]

/-- Witness for C8: the spec's fence-echo scenario, flags = BlockBefore,
payload "ping". -/
theorem C8_witness :
    (ConnParams.supportsFence ⟨true, false, 0⟩ = true
      ∧ 1 &&& (u32Mask ^^^ fenceFlagsSupported) = 0
      ∧ (1 : Nat) < 4294967296
      ∧ (4 : Nat) ≤ 64
      ∧ List.length [112, 105, 110, 103] = 4)
    ∧ (∃ msg, writeFence ⟨true, false, 0⟩ true 1 4 [112, 105, 110, 103] = .ok msg
        ∧ readFence (msg.drop 1) = .ok (.fence 1 4 [112, 105, 110, 103], [])) :=
  ⟨⟨rfl, by decide, by decide, by decide, by decide⟩,
    C8_fence_roundtrip ⟨true, false, 0⟩ true 1 4 [112, 105, 110, 103] rfl
      (by decide) (by decide) (by decide) (by decide)⟩

/--
Counterexample for claim C10: with MaxCutText configured to 8, a Caps message
of length 9 ≥ 4 + 4·0 whose flag word carries the Caps action bit is skipped
and dropped before the flags are even read — the u32s are neither read nor
delivered, contrary to the claim's unconditional "otherwise ... delivered".
-/
theorem C10_counterexample :
    ((16777216 &&& clipboardActionMask) &&& clipboardCaps ≠ 0)
    ∧ 4 + 4 * countFormatBits 16777216 ≤ 9
    ∧ readExtendedClipboard 8 9 (u32be 16777216 ++ [0, 0, 0, 0, 0]) = .ok (.ignored, [])
    ∧ ExtClipResult.isCaps .ignored = false :=
  ⟨by decide, by decide, rfl, rfl⟩

def countBitsOn (flags : Nat) : List Nat → Nat
  | [] => 0
  | i :: is => (if flags &&& (1 <<< i) ≠ 0 then 1 else 0) + countBitsOn flags is

theorem countFormatBits_foldl (flags : Nat) :
    ∀ (l : List Nat) (acc : Nat),
      l.foldl (fun n i => if flags &&& (1 <<< i) ≠ 0 then n + 1 else n) acc
        = acc + countBitsOn flags l := by
  intro l
  induction l with
  | nil => intro acc; simp [countBitsOn]
  | cons i is ih =>
    intro acc
    simp only [List.foldl_cons, countBitsOn]
    rw [ih]
    split_ifs <;> omega

theorem countFormatBits_eq (flags : Nat) :
    countFormatBits flags = countBitsOn flags (List.range 16) := by
  unfold countFormatBits
  rw [countFormatBits_foldl]
  omega

theorem readCapsLengths_spec (flags : Nat) :
    ∀ (l : List Nat) (ls z0 : List Nat),
      ls.length = countBitsOn flags l → (∀ v ∈ ls, v < 4294967296) →
      readCapsLengths flags l (ls.flatMap u32be ++ z0) = .ok (ls, z0) := by
  intro l
  induction l with
  | nil =>
    intro ls z0 hlen hv
    have h0 : ls = [] := List.eq_nil_of_length_eq_zero (by simpa [countBitsOn] using hlen)
    subst h0
    simp [readCapsLengths]
  | cons i is ih =>
    intro ls z0 hlen hv
    by_cases hbit : flags &&& (1 <<< i) ≠ 0
    · cases ls with
      | nil =>
        simp only [countBitsOn, List.length_nil] at hlen
        rw [if_pos hbit] at hlen
        exact ((by omega : False)).elim
      | cons v ls2 =>
        unfold readCapsLengths
        rw [if_pos hbit]
        simp only [List.flatMap_cons, List.append_assoc]
        simp only [bind, Except.bind]
        rw [readU32_u32be v (hv v (List.mem_cons_self v ls2))]
        dsimp only
        rw [ih ls2 z0 (by
            simp only [countBitsOn, List.length_cons] at hlen
            rw [if_pos hbit] at hlen
            omega)
          (fun u hu => hv u (List.mem_cons_of_mem v hu))]
    · unfold readCapsLengths
      rw [if_neg hbit]
      exact ih ls z0 (by
        simp only [countBitsOn] at hlen
        rw [if_neg hbit] at hlen
        omega) hv

/--
Claim C10 (amended): for every readExtendedClipboard call whose action field
contains the Caps bit and whose length L satisfies L ≤ maxCutText (otherwise
the whole message is skipped and dropped without reading the flags, see the
counterexample): if L < 4 + 4n, where n is the number of set bits among the
low 16 format bits, the call raises protocol-invalid and the clipboardCaps
handler is never invoked (for L < 4 even before reading the flags); otherwise
exactly one u32 per set format bit is read and delivered to clipboardCaps.
-/
theorem C10_caps (maxCT : Nat) (len : Int) (flags : Nat) (ls z0 : List Nat)
    (hflags : flags < 4294967296)
    (hcaps : (flags &&& clipboardActionMask) &&& clipboardCaps ≠ 0)
    (hmax : len ≤ (maxCT : Int)) :
    (len < 4 + 4 * (countFormatBits flags : Int) →
      ∀ t, readExtendedClipboard maxCT len (u32be flags ++ t)
        = .error .invalidExtendedClipboardMsg)
    ∧ (4 + 4 * (countFormatBits flags : Int) ≤ len →
      ls.length = countFormatBits flags → (∀ v ∈ ls, v < 4294967296) →
      readExtendedClipboard maxCT len (u32be flags ++ (ls.flatMap u32be ++ z0))
        = .ok (.caps flags ls, z0)) := by
  constructor
  · intro hlt t
    unfold readExtendedClipboard
    by_cases h4 : len < 4
    · rw [if_pos h4]
    · rw [if_neg h4, if_neg (by omega)]
      simp only [bind, Except.bind]
      rw [readU32_u32be flags hflags]
      dsimp only
      rw [if_pos hcaps]
      rw [if_pos hlt]
  · intro hge hlen hv
    unfold readExtendedClipboard
    rw [if_neg (by omega), if_neg (by omega)]
    simp only [bind, Except.bind]
    rw [readU32_u32be flags hflags]
    dsimp only
    rw [if_pos hcaps, if_neg (by omega)]
    rw [countFormatBits_eq] at hlen
    rw [readCapsLengths_spec flags (List.range 16) ls z0 hlen hv]

/-- Witness for C10: caps flags with one format bit, one length word. -/
theorem C10_witness :
    ((16777217 : Nat) < 4294967296
      ∧ (16777217 &&& clipboardActionMask) &&& clipboardCaps ≠ 0
      ∧ (8 : Int) ≤ (262144 : Nat))
    ∧ (((8 : Int) < 4 + 4 * (countFormatBits 16777217 : Int) →
        ∀ t, readExtendedClipboard 262144 8 (u32be 16777217 ++ t)
          = .error .invalidExtendedClipboardMsg)
      ∧ (4 + 4 * (countFormatBits 16777217 : Int) ≤ 8 →
        List.length [100] = countFormatBits 16777217 →
        (∀ v ∈ [100], v < 4294967296) →
        readExtendedClipboard 262144 8 (u32be 16777217 ++ ([100].flatMap u32be ++ []))
          = .ok (.caps 16777217 [100], [])))
    ∧ readExtendedClipboard 262144 8 (u32be 16777217 ++ ([100].flatMap u32be ++ []))
        = .ok (.caps 16777217 [100], []) := by
  refine ⟨⟨by decide, by decide, by decide⟩, ?_, rfl⟩
  exact C10_caps 262144 8 16777217 [100] [] (by decide) (by decide) (by decide)

theorem and_clear_other (f i j : Nat) (hij : i ≠ j) (hj : j < 32) :
    (f &&& (u32Mask ^^^ (1 <<< i))) &&& (1 <<< j) = f &&& (1 <<< j) := by
  rw [Nat.and_assoc]
  congr 1
  apply Nat.eq_of_testBit_eq
  intro k
  rw [Nat.testBit_and, Nat.testBit_xor, Nat.one_shiftLeft, Nat.one_shiftLeft,
    Nat.testBit_two_pow, Nat.testBit_two_pow,
    show u32Mask = 2 ^ 32 - 1 by norm_num [u32Mask], Nat.testBit_two_pow_sub_one]
  by_cases hk : j = k
  · subst hk
    simp [hij, hj]
  · simp [hk]

/-- The provide records of the format bits in `l` that are set in `flags`:
one u32 length followed by the payload per set bit, in ascending bit order. -/
def provideEncodedOn (flags : Nat) (data : Nat → Nat × List Nat) :
    List Nat → List Nat
  | [] => []
  | i :: is =>
    if flags &&& (1 <<< i) ≠ 0 then
      u32be (data i).1 ++ ((data i).2 ++ provideEncodedOn flags data is)
    else provideEncodedOn flags data is

/-- The flag word delivered by the provide branch: every set bit in `l` whose
length exceeds maxCutText is cleared on the 32-bit word. -/
def provideClearedOn (maxCutText : Nat) (data : Nat → Nat × List Nat) :
    List Nat → Nat → Nat
  | [], flags => flags
  | i :: is, flags =>
    if flags &&& (1 <<< i) ≠ 0 then
      if maxCutText < (data i).1 then
        provideClearedOn maxCutText data is (flags &&& (u32Mask ^^^ (1 <<< i)))
      else provideClearedOn maxCutText data is flags
    else provideClearedOn maxCutText data is flags

/-- The (length, buffer) pairs delivered by the provide branch: the entries of
the set format bits whose length is within maxCutText, in bit order, intact. -/
def provideDeliveredOn (maxCutText flags : Nat) (data : Nat → Nat × List Nat) :
    List Nat → List (Nat × List Nat)
  | [] => []
  | i :: is =>
    if flags &&& (1 <<< i) ≠ 0 then
      if maxCutText < (data i).1 then provideDeliveredOn maxCutText flags data is
      else data i :: provideDeliveredOn maxCutText flags data is
    else provideDeliveredOn maxCutText flags data is

theorem provideEncodedOn_congr (data : Nat → Nat × List Nat) :
    ∀ (l : List Nat) (f g : Nat),
      (∀ j ∈ l, f &&& (1 <<< j) = g &&& (1 <<< j)) →
      provideEncodedOn f data l = provideEncodedOn g data l := by
  intro l
  induction l with
  | nil => intro f g _; rfl
  | cons i is ih =>
    intro f g h
    unfold provideEncodedOn
    rw [h i (List.mem_cons_self i is),
      ih f g (fun j hj => h j (List.mem_cons_of_mem i hj))]

theorem provideDeliveredOn_congr (maxCutText : Nat) (data : Nat → Nat × List Nat) :
    ∀ (l : List Nat) (f g : Nat),
      (∀ j ∈ l, f &&& (1 <<< j) = g &&& (1 <<< j)) →
      provideDeliveredOn maxCutText f data l = provideDeliveredOn maxCutText g data l := by
  intro l
  induction l with
  | nil => intro f g _; rfl
  | cons i is ih =>
    intro f g h
    unfold provideDeliveredOn
    rw [h i (List.mem_cons_self i is),
      ih f g (fun j hj => h j (List.mem_cons_of_mem i hj))]

theorem provideLoop_spec (maxCT : Nat) (data : Nat → Nat × List Nat)
    (hdata : ∀ i, ((data i).2).length = (data i).1 ∧ (data i).1 < 4294967296) :
    ∀ (l : List Nat), (∀ j ∈ l, j < 32) → l.Nodup →
    ∀ (flags : Nat) (z0 : List Nat),
      provideLoop maxCT l flags (provideEncodedOn flags data l ++ z0)
        = .ok (provideClearedOn maxCT data l flags,
               provideDeliveredOn maxCT flags data l, z0) := by
  intro l
  induction l with
  | nil =>
    intro _ _ flags z0
    simp [provideLoop, provideEncodedOn, provideClearedOn, provideDeliveredOn]
  | cons i is ih =>
    intro hb hnd flags z0
    have hbis : ∀ j ∈ is, j < 32 := fun j hj => hb j (List.mem_cons_of_mem i hj)
    have hnd2 : is.Nodup := (List.nodup_cons.mp hnd).2
    have hni : i ∉ is := (List.nodup_cons.mp hnd).1
    by_cases hbit : flags &&& (1 <<< i) = 0
    · unfold provideLoop provideEncodedOn provideClearedOn provideDeliveredOn
      rw [if_pos hbit, if_neg (not_not_intro hbit), if_neg (not_not_intro hbit),
        if_neg (not_not_intro hbit)]
      exact ih hbis hnd2 flags z0
    · have hui := hdata i
      unfold provideLoop provideEncodedOn provideClearedOn provideDeliveredOn
      rw [if_neg hbit, if_pos hbit, if_pos hbit, if_pos hbit]
      rw [List.append_assoc, readU32_u32be _ hui.2]
      simp only [bind, Except.bind]
      by_cases hsz : maxCT < (data i).1
      · rw [if_pos hsz, if_pos hsz, if_pos hsz]
        have hskip : skipBytes (data i).1
            ((data i).2 ++ (provideEncodedOn flags data is ++ z0))
            = .ok (provideEncodedOn flags data is ++ z0) := by
          rw [← hui.1]
          exact skipBytes_append _ _
        rw [List.append_assoc, hskip]
        dsimp only
        have hcong : ∀ j ∈ is, (flags &&& (u32Mask ^^^ (1 <<< i))) &&& (1 <<< j)
            = flags &&& (1 <<< j) := by
          intro j hj
          exact and_clear_other flags i j (fun he => hni (he ▸ hj)) (hbis j hj)
        rw [← provideEncodedOn_congr data is _ flags hcong]
        rw [ih hbis hnd2 (flags &&& (u32Mask ^^^ (1 <<< i))) z0]
        rw [provideDeliveredOn_congr maxCT data is _ flags hcong]
      · rw [if_neg hsz, if_neg hsz, if_neg hsz]
        have hread : readBytesN (data i).1
            ((data i).2 ++ (provideEncodedOn flags data is ++ z0))
            = .ok ((data i).2, provideEncodedOn flags data is ++ z0) := by
          rw [← hui.1]
          exact readBytesN_append _ _
        rw [List.append_assoc, hread]
        dsimp only
        rw [ih hbis hnd2 flags z0]

/--
Claim C7: in readExtendedClipboard with action Provide, every format whose
u32 length exceeds maxCutText has its bit cleared in the delivered flag word
and its data skipped, while parsing continues and all remaining formats are
delivered to clipboardProvide with their lengths and buffers intact.  The
theorem runs the reader on the records of an arbitrary per-bit data
assignment: the delivered flag word is the input word with exactly the
oversized set bits cleared (provideClearedOn), and the delivered entries are
exactly the non-oversized set bits' (length, buffer) pairs in bit order
(provideDeliveredOn).
-/
theorem C7_provide_oversized (maxCT : Nat) (len : Int) (flags : Nat)
    (data : Nat → Nat × List Nat) (z0 : List Nat)
    (hflags : flags < 4294967296)
    (haction : flags &&& clipboardActionMask = clipboardProvide)
    (hlen4 : 4 ≤ len) (hlenmax : len ≤ (maxCT : Int))
    (hdata : ∀ i, ((data i).2).length = (data i).1 ∧ (data i).1 < 4294967296) :
    readExtendedClipboard maxCT len
        (u32be flags ++ (provideEncodedOn flags data (List.range 16) ++ z0))
      = .ok (.provide (provideClearedOn maxCT data (List.range 16) flags)
                      (provideDeliveredOn maxCT flags data (List.range 16)), z0) := by
  unfold readExtendedClipboard
  rw [if_neg (by omega), if_neg (by omega)]
  simp only [bind, Except.bind]
  rw [readU32_u32be flags hflags]
  dsimp only
  rw [haction]
  rw [if_neg (by decide), if_pos rfl]
  rw [provideLoop_spec maxCT data hdata (List.range 16)
    (fun j hj => by have := List.mem_range.mp hj; omega) (List.nodup_range 16) flags z0]

def provideWitnessData : Nat → Nat × List Nat := fun i =>
  if i = 0 then (3, [97, 98, 99])
  else if i = 1 then (9, [0, 0, 0, 0, 0, 0, 0, 0, 0])
  else (0, [])

/-- Witness for C7, together with a concrete run of the provide loop where the
format of bit 1 exceeds the limit: its bit is cleared (flags 0x10000003 become
0x10000001), its data is skipped, and the remaining format is delivered
intact. -/
theorem C7_witness :
    ((268435459 : Nat) < 4294967296
      ∧ 268435459 &&& clipboardActionMask = clipboardProvide
      ∧ (4 : Int) ≤ 30 ∧ (30 : Int) ≤ (262144 : Nat)
      ∧ ∀ i, ((provideWitnessData i).2).length = (provideWitnessData i).1
          ∧ (provideWitnessData i).1 < 4294967296)
    ∧ readExtendedClipboard 262144 30
        (u32be 268435459
          ++ (provideEncodedOn 268435459 provideWitnessData (List.range 16) ++ []))
      = .ok (.provide (provideClearedOn 262144 provideWitnessData (List.range 16) 268435459)
                      (provideDeliveredOn 262144 268435459 provideWitnessData (List.range 16)), [])
    ∧ provideClearedOn 8 provideWitnessData (List.range 16) 268435459 = 268435457
    ∧ provideDeliveredOn 8 268435459 provideWitnessData (List.range 16) = [(3, [97, 98, 99])]
    ∧ provideLoop 8 (List.range 16) 268435459
        (provideEncodedOn 268435459 provideWitnessData (List.range 16) ++ [])
      = .ok (268435457, [(3, [97, 98, 99])], []) := by
  have hdata : ∀ i, ((provideWitnessData i).2).length = (provideWitnessData i).1
      ∧ (provideWitnessData i).1 < 4294967296 := by
    intro i
    unfold provideWitnessData
    split_ifs <;> norm_num
  refine ⟨⟨by decide, by decide, by decide, by decide, hdata⟩, ?_, by decide, by decide, rfl⟩
  exact C7_provide_oversized 262144 30 268435459 provideWitnessData []
    (by decide) (by decide) (by decide) (by decide) hdata
